import Mathlib

/-!
Shallow embedding of the cardano-clustered-wallets repository.

The embedding follows the TypeScript source:
* `src/clustered-wallet/ClusteredWallet.ts` — the discovery engine
  (`discover`, `_popFromSet`, `_insertRangeInSet`) and the aggregate wallet;
* `src/blockchain-explorer/BlockfrostBlockchainDataSource.ts` — the data
  source built on the Blockfrost HTTP API (modelled as an abstract record of
  possibly-failing calls);
* `src/utils.ts` — `getPaymentCredential`, embedded over an abstract address
  decoder standing for the external `Cardano.Address` codec.

JavaScript `Set<string>` values are modelled as insertion-ordered duplicate
free lists (insertion of a present element keeps its position, iteration and
`_popFromSet` follow insertion order).  JavaScript exceptions are modelled
with `Except`.  `bigint` is modelled as `Int`.  A JS `Map` is modelled as an
association list; the external `coalesceValueQuantities` helper of
`@cardano-sdk/core` is modelled from the spec: coins are added pointwise and
per-asset quantities are added per asset identifier.
-/

namespace CW

/-! ### Data model -/

/-- A Cardano value: coins plus a per-asset-id quantity map
(`Cardano.Value` of `@cardano-sdk/core`). -/
structure Value where
  coins : Int
  assets : List (String × Int)
deriving Repr, DecidableEq

/-- An unspent transaction output, from `src/clustered-wallet/Utxo.ts`. -/
structure Utxo where
  txHash : String
  index : Nat
  value : Value
  address : String
deriving Repr, DecidableEq

/-- Reward account information, from `src/clustered-wallet/RewardAccountInfo.ts`. -/
structure RewardAccountInfo where
  stakingCredential : String
  rewards : Int
  stakedAmount : Int
  poolId : Option String
deriving Repr, DecidableEq

/-- Information about one discovered address, from `src/clustered-wallet/AddressInfo.ts`.
The TypeScript field `stakingCredential : string` actually receives the
possibly-null result of `getStakingCredential`, hence `Option String` here. -/
structure AddressInfo where
  address : String
  paymentCredential : String
  stakingCredential : Option String
  balance : Value
  utxos : List Utxo
deriving Repr, DecidableEq

/-! ### The external value coalescing helper

Modelled from the spec: `coalesceValueQuantities` of `@cardano-sdk/core`
(not part of this repository) folds a sequence of values via pointwise
addition of coins and per-asset-identifier addition of quantities. -/

/-- Quantity of asset `aid` recorded in an asset map (0 when absent);
the JS `Map` lookup. -/
def assetQty (assets : List (String × Int)) (aid : String) : Int :=
  match assets.find? (fun p => p.1 = aid) with
  | some p => p.2
  | none => 0

/-- Add one (asset, quantity) entry into an asset map, merging quantities on
an existing key. -/
def insertAdd : List (String × Int) → String × Int → List (String × Int)
  | [], p => [p]
  | q :: rest, p => if q.1 = p.1 then (q.1, q.2 + p.2) :: rest else q :: insertAdd rest p

/-- Merge the second asset map into the first, adding per-key quantities. -/
def addAssets (a b : List (String × Int)) : List (String × Int) :=
  b.foldl insertAdd a

/-- Pointwise addition of two values. -/
def addValue (v w : Value) : Value :=
  ⟨v.coins + w.coins, addAssets v.assets w.assets⟩

/-- The zero value. -/
def emptyValue : Value := ⟨0, []⟩

/-- Modelled from the spec: `coalesceValueQuantities` of `@cardano-sdk/core`. -/
def coalesceValueQuantities (vs : List Value) : Value :=
  vs.foldl addValue emptyValue

/-! ### Collaborators of the discovery engine -/

/-- The abstract blockchain data source, `IBlockchainDataSource.ts`.
`getRewardAccountInfo` returns `none` for an account the provider does not
know (the `null` of the interface). -/
structure DataSource where
  getRewardAccounts : String → List String
  getRewardAccountInfo : String → Option RewardAccountInfo
  getAddresses : String → List String
  getUtxos : String → List Utxo
  getNetworkId : Int

/-- The credential resolver of `src/utils.ts`, abstracted: both helpers may
throw (decode failure), and `getStakingCredential` returns `null` for an
address without a staking part. -/
structure Resolver where
  payment : String → Except Unit String
  staking : String → Int → Except Unit (Option String)

/-- Errors a run of `discover` can end with.  `monitorError` models an
exception escaping the progress monitor's `update`; `malformedAddress`
models an exception escaping the credential resolver; `undefinedPop` marks
the implicit `undefined` return of `_popFromSet` on an empty set being used;
`outOfFuel` is an artefact of the fuelled loop embedding. -/
inductive DiscoverError where
  | monitorError
  | malformedAddress
  | outOfFuel
  | undefinedPop
deriving Repr, DecidableEq

/-- The optional progress monitor's `update` method; it may throw. -/
abbrev Monitor := String → Except Unit Unit

/-- One `progressMonitor?.update(msg)` call site. -/
def callMon (mon : Option Monitor) (msg : String) : Except DiscoverError Unit :=
  match mon with
  | none => Except.ok ()
  | some m =>
    match m msg with
    | Except.ok _ => Except.ok ()
    | Except.error _ => Except.error DiscoverError.monitorError

/-! ### JS `Set<string>` operations -/

/-- `Set.add`: append if absent, keep position if present. -/
def setAdd (s : List String) (x : String) : List String :=
  if s.contains x then s else s ++ [x]

/-- `ClusteredWallet._insertRangeInSet`. -/
def insertRangeInSet (arr : List String) (s : List String) : List String :=
  arr.foldl setAdd s

/-- `ClusteredWallet._popFromSet`: remove and return the first element in
insertion order; falls off the end (returns `undefined`, here `none`) on an
empty set. -/
def popFromSet (s : List String) : Option (String × List String) :=
  match s with
  | [] => none
  | x :: xs => some (x, xs)

/-! ### The discovery loop -/

/-- The mutable state of `discover`'s while loop: `addressToExplore`,
`clusterAddresses` and `clusterRewardAccounts`. -/
structure LoopState where
  frontier : List String
  cluster : List String
  ras : List String
deriving Repr, DecidableEq

/-- Body of the `for (const rewardAccount of rewardAccounts)` loop of
`ClusteredWallet.discover`. -/
def processRA (ds : DataSource) (mon : Option Monitor) (st : LoopState) (ra : String) :
    Except DiscoverError LoopState :=
  if st.ras.contains ra then Except.ok st
  else
    let ras2 := st.ras ++ [ra]
    match callMon mon ("Searching " ++ ra ++ " for new addresses...") with
    | Except.error e => Except.error e
    | Except.ok _ =>
      let addresses := ds.getAddresses ra
      let startingAddressCount := st.cluster.length
      let frontier2 := insertRangeInSet addresses st.frontier
      let cluster2 := insertRangeInSet addresses st.cluster
      match callMon mon ("Found " ++ toString (cluster2.length - startingAddressCount)
          ++ " new addresses.") with
      | Except.error e => Except.error e
      | Except.ok _ => Except.ok ⟨frontier2, cluster2, ras2⟩

/-- The `while (isDiscovering)` loop of `ClusteredWallet.discover`, with
explicit fuel (the loop breaks when the frontier is empty; the fuel is an
embedding artefact and `discoverFuel` below always suffices). -/
def discoverLoop (ds : DataSource) (mon : Option Monitor) :
    Nat → LoopState → Except DiscoverError LoopState
  | 0, _ => Except.error DiscoverError.outOfFuel
  | Nat.succ fuel, st =>
    if st.frontier.isEmpty then Except.ok st
    else
      match popFromSet st.frontier with
      | none => Except.error DiscoverError.undefinedPop
      | some (address, rest) =>
        let st1 : LoopState := ⟨rest, st.cluster, st.ras⟩
        if st1.cluster.contains address then discoverLoop ds mon fuel st1
        else
          match callMon mon ("Getting reward accounts for " ++ address ++ ".") with
          | Except.error e => Except.error e
          | Except.ok _ =>
            match List.foldlM (processRA ds mon) st1 (ds.getRewardAccounts address) with
            | Except.error e => Except.error e
            | Except.ok st2 => discoverLoop ds mon fuel st2

/-- Fuel sufficient for the loop: one expansion of the seed plus draining a
frontier never longer than the total number of addresses the seed's reward
accounts return. -/
def discoverFuel (ds : DataSource) (seed : String) : Nat :=
  2 + List.sum (List.map (fun ra => (ds.getAddresses ra).length) (ds.getRewardAccounts seed))

/-- The initial loop state: `addressToExplore.add(seedAddress)` on empty sets. -/
def initState (seed : String) : LoopState :=
  ⟨setAdd [] seed, [], []⟩

/-! ### Aggregation phase -/

/-- Build the `AddressInfo` pushed for one cluster address (the body of the
`for (const clusterAddress of clusterAddresses)` loop). -/
def buildAddressInfo (res : Resolver) (ds : DataSource) (address : String) :
    Except DiscoverError AddressInfo :=
  let utxos := ds.getUtxos address
  let balance := coalesceValueQuantities (List.map Utxo.value utxos)
  match res.payment address with
  | Except.error _ => Except.error DiscoverError.malformedAddress
  | Except.ok paymentCredential =>
    match res.staking address ds.getNetworkId with
    | Except.error _ => Except.error DiscoverError.malformedAddress
    | Except.ok stakingCredential =>
      Except.ok ⟨address, paymentCredential, stakingCredential, balance, utxos⟩

/-- One step of the per-address aggregation: push the address's UTXOs onto
the running `clusterUtxos` and its `AddressInfo` onto `clusterAddressInfo`. -/
def aggStep (res : Resolver) (ds : DataSource) (acc : List Utxo × List AddressInfo)
    (address : String) : Except DiscoverError (List Utxo × List AddressInfo) :=
  match buildAddressInfo res ds address with
  | Except.error e => Except.error e
  | Except.ok info => Except.ok (acc.1 ++ ds.getUtxos address, acc.2 ++ [info])

/-- Whether two UTXOs share the (transaction hash, output index) key; the
predicate of the `findIndex` call in `discover`. -/
def sameUtxoKey (t v : Utxo) : Bool :=
  t.txHash == v.txHash && t.index == v.index

/-- The UTXO deduplication of `discover`:
`filter((value, index, self) => index === self.findIndex(t => sameKey))`,
keeping the first occurrence of each (hash, index) key. -/
def dedupUtxos (self : List Utxo) : List Utxo :=
  List.map Prod.snd
    (List.filter (fun p => p.1 == List.findIdx (fun t => sameUtxoKey t p.2) self)
      (List.zip (List.range self.length) self))

/-- The aggregate wallet, `ClusteredWallet`. -/
structure ClusteredWallet where
  utxos : List Utxo
  clusterAddresses : List AddressInfo
  clusterRewardAccounts : List RewardAccountInfo
  balance : Value
  rewards : Int
deriving Repr, DecidableEq

/-- `ClusteredWallet.getRewardAccounts`. -/
def ClusteredWallet.getRewardAccounts (w : ClusteredWallet) : List RewardAccountInfo :=
  w.clusterRewardAccounts

/-- `ClusteredWallet.getRewards`. -/
def ClusteredWallet.getRewards (w : ClusteredWallet) : Int :=
  w.rewards

/-- `ClusteredWallet.getBalance`. -/
def ClusteredWallet.getBalance (w : ClusteredWallet) : Value :=
  w.balance

/-- `ClusteredWallet.getUTXOs`. -/
def ClusteredWallet.getUTXOs (w : ClusteredWallet) : List Utxo :=
  w.utxos

/-- `ClusteredWallet.getAddresses`. -/
def ClusteredWallet.getAddresses (w : ClusteredWallet) : List AddressInfo :=
  w.clusterAddresses

/-- `ClusteredWallet.discover`. -/
def discover (mon : Option Monitor) (res : Resolver) (ds : DataSource)
    (seedAddress : String) : Except DiscoverError ClusteredWallet :=
  match callMon mon ("Starting cluster discovery from seed " ++ seedAddress ++ ".") with
  | Except.error e => Except.error e
  | Except.ok _ =>
    match discoverLoop ds mon (discoverFuel ds seedAddress) (initState seedAddress) with
    | Except.error e => Except.error e
    | Except.ok stF =>
      match List.foldlM (aggStep res ds) ([], []) stF.cluster with
      | Except.error e => Except.error e
      | Except.ok acc =>
        let clusterRewardAccountInfo := List.filterMap ds.getRewardAccountInfo stF.ras
        let utxos := dedupUtxos acc.1
        let balance := coalesceValueQuantities (List.map Utxo.value utxos)
        let rewards := List.foldl (fun a i => a + RewardAccountInfo.rewards i) 0
          clusterRewardAccountInfo
        match callMon mon "Cluster discovery complete." with
        | Except.error e => Except.error e
        | Except.ok _ =>
          Except.ok ⟨utxos, acc.2, clusterRewardAccountInfo, balance, rewards⟩

/-- The reward accounts collected by the discovery loop (the contents of
`clusterRewardAccounts` when the loop finishes). -/
def discoveredRAs (mon : Option Monitor) (ds : DataSource) (seed : String) : List String :=
  match discoverLoop ds mon (discoverFuel ds seed) (initState seed) with
  | Except.ok st => st.ras
  | Except.error _ => []

/-! ### Concrete worlds used to evaluate the engine -/

/-- A resolver for which every address resolves (payment credential is the
address itself, no staking part). -/
def resOK : Resolver :=
  ⟨fun a => Except.ok a, fun _ _ => Except.ok none⟩

/-- A data source answering nothing at all. -/
def dsTriv : DataSource :=
  ⟨fun _ => [], fun _ => none, fun _ => [], fun _ => [], 0⟩

/-- A two-hop credential chain: seed S shares reward account K1 with B, and
B shares reward account K2 with C. -/
def dsChain : DataSource :=
  ⟨fun a => if a = "S" then ["K1"] else if a = "B" then ["K2"] else [],
   fun _ => none,
   fun ra => if ra = "K1" then ["S", "B"] else if ra = "K2" then ["B", "C"] else [],
   fun _ => [],
   0⟩

/-- A credential cycle: A's staking credential K_A leads to the address set
containing B, and B's staking credential K_B leads back to the set containing A. -/
def dsCycle : DataSource :=
  ⟨fun a => if a = "A" then ["KA"] else if a = "B" then ["KB"] else [],
   fun _ => none,
   fun ra => if ra = "KA" then ["B"] else if ra = "KB" then ["A"] else [],
   fun _ => [],
   0⟩

/-- A data source for which the seed has no staking credential: no reward
accounts anywhere, but the seed owns one 600-coin UTXO. -/
def dsNoStake : DataSource :=
  ⟨fun _ => [],
   fun _ => none,
   fun _ => [],
   fun a => if a = "S" then [⟨"tx1", 0, ⟨600, []⟩, "S"⟩] else [],
   0⟩

/-- The empty wallet `discover` builds when nothing is found. -/
def emptyWallet : ClusteredWallet := ⟨[], [], [], ⟨0, []⟩, 0⟩

/-- C1: the code does not compute the reflexive-transitive closure.  With
`dsChain`, address C is reachable from seed S through B (S -K1- B, B -K2- C),
but discovery stops after expanding only the seed: every address returned by
`getAddresses` is put into `clusterAddresses` at once, and the
`clusterAddresses.has(address)` guard then skips it when popped, so B's
reward accounts are never queried and the final address set is {S, B}, not
{S, B, C}. -/
theorem discover_chain_misses_transitive_closure :
    Except.map (fun w => List.map AddressInfo.address (ClusteredWallet.getAddresses w))
      (discover none resOK dsChain "S") = Except.ok ["S", "B"] := by
  rfl

/-- C2: on the minimal credential cycle `dsCycle` (A -KA- {B}, B -KB- {A})
the loop terminates, but the final cluster is {B} alone: the seed A is never
added to `clusterAddresses` (it is not in `getAddresses "KA"`), and B is
skipped when popped, so B's reward account KB is never explored.  The claim
that both A and B are contained exactly once fails. -/
theorem discover_cycle_misses_seed :
    Except.map (fun w => List.map AddressInfo.address (ClusteredWallet.getAddresses w))
      (discover none resOK dsCycle "A") = Except.ok ["B"] := by
  rfl

/-- C7: a seed whose `getRewardAccounts` is empty is dropped from the
cluster entirely: the final wallet has no addresses, no UTXOs and zero
balance even though `getUtxos "S"` holds a 600-coin UTXO, because the seed
is only ever added to `clusterAddresses` via some reward account's address
list. -/
theorem discover_unstaked_seed_dropped :
    discover none resOK dsNoStake "S" = Except.ok emptyWallet := by
  rfl

/-! ### Error classification: which errors each stage can produce -/

theorem popFromSet_eq_none {s : List String} (h : popFromSet s = none) : s = [] := by
  cases s with
  | nil => rfl
  | cons x xs => simp [popFromSet] at h

theorem callMon_error {mon : Option Monitor} {msg : String} {e : DiscoverError}
    (h : callMon mon msg = Except.error e) : e = DiscoverError.monitorError := by
  cases mon with
  | none => simp [callMon] at h
  | some m =>
    cases hm : m msg with
    | ok u => simp [callMon, hm] at h
    | error u =>
      simp only [callMon, hm] at h
      cases h
      rfl

theorem processRA_error {ds : DataSource} {mon : Option Monitor} {st : LoopState}
    {ra : String} {e : DiscoverError} (h : processRA ds mon st ra = Except.error e) :
    e = DiscoverError.monitorError := by
  simp only [processRA] at h
  split at h
  · cases h
  · split at h
    · rename_i hc; cases h; exact callMon_error hc
    · split at h
      · rename_i hc; cases h; exact callMon_error hc
      · cases h

theorem foldlM_processRA_error {ds : DataSource} {mon : Option Monitor} :
    ∀ (l : List String) (st : LoopState) (e : DiscoverError),
    List.foldlM (processRA ds mon) st l = Except.error e → e = DiscoverError.monitorError := by
  intro l
  induction l with
  | nil => intro st e h; simp [List.foldlM, pure, Except.pure] at h
  | cons a l ih =>
    intro st e h
    rw [List.foldlM_cons] at h
    cases hp : processRA ds mon st a with
    | error e1 =>
      rw [hp] at h
      simp only [Bind.bind, Except.bind] at h
      cases h
      exact processRA_error hp
    | ok st2 =>
      rw [hp] at h
      simp only [Bind.bind, Except.bind] at h
      exact ih st2 e h

theorem discoverLoop_error {ds : DataSource} {mon : Option Monitor} :
    ∀ (fuel : Nat) (st : LoopState) (e : DiscoverError),
    discoverLoop ds mon fuel st = Except.error e →
    e = DiscoverError.outOfFuel ∨ e = DiscoverError.monitorError := by
  intro fuel
  induction fuel with
  | zero =>
    intro st e h
    simp only [discoverLoop] at h
    cases h
    exact Or.inl rfl
  | succ fuel ih =>
    intro st e h
    simp only [discoverLoop] at h
    split at h
    · cases h
    · rename_i hne
      split at h
      · rename_i hpop
        exfalso
        rw [popFromSet_eq_none hpop] at hne
        simp at hne
      · split at h
        · exact ih _ e h
        · split at h
          · rename_i hc; cases h; exact Or.inr (callMon_error hc)
          · split at h
            · rename_i hf; cases h; exact Or.inr (foldlM_processRA_error _ _ _ hf)
            · exact ih _ e h

theorem buildAddressInfo_error {res : Resolver} {ds : DataSource} {a : String}
    {e : DiscoverError} (h : buildAddressInfo res ds a = Except.error e) :
    e = DiscoverError.malformedAddress := by
  simp only [buildAddressInfo] at h
  split at h
  · cases h; rfl
  · split at h
    · cases h; rfl
    · cases h

theorem aggStep_error {res : Resolver} {ds : DataSource} {acc : List Utxo × List AddressInfo}
    {a : String} {e : DiscoverError} (h : aggStep res ds acc a = Except.error e) :
    e = DiscoverError.malformedAddress := by
  simp only [aggStep] at h
  split at h
  · rename_i hb; cases h; exact buildAddressInfo_error hb
  · cases h

theorem foldlM_aggStep_error {res : Resolver} {ds : DataSource} :
    ∀ (l : List String) (acc : List Utxo × List AddressInfo) (e : DiscoverError),
    List.foldlM (aggStep res ds) acc l = Except.error e →
    e = DiscoverError.malformedAddress := by
  intro l
  induction l with
  | nil => intro acc e h; simp [List.foldlM, pure, Except.pure] at h
  | cons a l ih =>
    intro acc e h
    rw [List.foldlM_cons] at h
    cases hp : aggStep res ds acc a with
    | error e1 =>
      rw [hp] at h
      simp only [Bind.bind, Except.bind] at h
      cases h
      exact aggStep_error hp
    | ok acc2 =>
      rw [hp] at h
      simp only [Bind.bind, Except.bind] at h
      exact ih acc2 e h

theorem discover_error {mon : Option Monitor} {res : Resolver} {ds : DataSource}
    {seed : String} {e : DiscoverError} (h : discover mon res ds seed = Except.error e) :
    e = DiscoverError.monitorError ∨ e = DiscoverError.outOfFuel ∨
    e = DiscoverError.malformedAddress := by
  simp only [discover] at h
  split at h
  · rename_i hc; cases h; exact Or.inl (callMon_error hc)
  · split at h
    · rename_i hl; cases h
      rcases discoverLoop_error _ _ _ hl with h1 | h1
      · exact Or.inr (Or.inl h1)
      · exact Or.inl h1
    · split at h
      · rename_i hf; cases h; exact Or.inr (Or.inr (foldlM_aggStep_error _ _ _ hf))
      · split at h
        · rename_i hc; cases h; exact Or.inl (callMon_error hc)
        · cases h

/-- C10: `_popFromSet` always yields a defined value when the set is
non-empty, and the size guard at the top of the loop means the implicit
`undefined`-returning branch is unreachable: no run of `discover` can end
with the `undefinedPop` poison value. -/
theorem discover_popFromSet_guarded :
    (∀ s : List String, s ≠ [] → (popFromSet s).isSome = true)
    ∧ ∀ (mon : Option Monitor) (res : Resolver) (ds : DataSource) (seed : String),
        discover mon res ds seed ≠ Except.error DiscoverError.undefinedPop := by
  constructor
  · intro s hs
    cases s with
    | nil => exact absurd rfl hs
    | cons x xs => rfl
  · intro mon res ds seed h
    rcases discover_error h with h1 | h1 | h1 <;> cases h1

/-- C10 witness: the guard lemma applied to the concrete non-empty set
containing only the seed address. -/
theorem discover_popFromSet_guarded_witness : (popFromSet ["addr1"]).isSome = true :=
  discover_popFromSet_guarded.1 ["addr1"] (by decide)

/-! ### The progress monitor is observational when it does not throw -/

theorem callMon_none_eq (msg : String) : callMon none msg = Except.ok () := rfl

theorem callMon_some_ok {mon : Monitor} (hm : ∀ s, mon s = Except.ok ()) (msg : String) :
    callMon (some mon) msg = Except.ok () := by
  simp [callMon, hm]

theorem processRA_mon {ds : DataSource} {mon : Monitor} (hm : ∀ s, mon s = Except.ok ())
    (st : LoopState) (ra : String) :
    processRA ds (some mon) st ra = processRA ds none st ra := by
  simp only [processRA, callMon_some_ok hm, callMon_none_eq]

theorem discoverLoop_mon {ds : DataSource} {mon : Monitor} (hm : ∀ s, mon s = Except.ok ()) :
    ∀ (fuel : Nat) (st : LoopState),
    discoverLoop ds (some mon) fuel st = discoverLoop ds none fuel st := by
  intro fuel
  have hpr : processRA ds (some mon) = processRA ds none :=
    funext fun st => funext fun ra => processRA_mon hm st ra
  induction fuel with
  | zero => intro st; rfl
  | succ fuel ih =>
    intro st
    simp only [discoverLoop, callMon_some_ok hm, callMon_none_eq, hpr, ih]

/-- C9 (amended): a progress sink whose `update` never throws is purely
observational: `discover` with such a sink returns exactly the same result
(same wallet or same error) as `discover` with no sink at all. -/
theorem discover_monitor_transparent :
    ∀ (mon : Monitor) (res : Resolver) (ds : DataSource) (seed : String),
    (∀ s, mon s = Except.ok ()) →
    discover (some mon) res ds seed = discover none res ds seed := by
  intro mon res ds seed hm
  simp only [discover, callMon_some_ok hm, callMon_none_eq, discoverLoop_mon hm]

/-- A monitor that always succeeds. -/
def monOK : Monitor := fun _ => Except.ok ()

/-- A monitor whose `update` throws on every message. -/
def monThrow : Monitor := fun _ => Except.error ()

/-- C9 witness: the transparency theorem at the always-succeeding monitor
and a concrete data source. -/
theorem discover_monitor_transparent_witness :
    discover (some monOK) resOK dsTriv "Z" = discover none resOK dsTriv "Z" :=
  discover_monitor_transparent monOK resOK dsTriv "Z" (fun _ => rfl)

/-- C9 counterexample: a sink CAN fail the traversal.  The `update` calls
are not guarded, so a progress monitor that throws aborts `discover` with an
error, while the very same discovery with no sink completes with a wallet:
the two runs neither return the same wallet nor fail identically. -/
theorem discover_monitor_can_fail :
    discover (some monThrow) resOK dsTriv "Z" = Except.error DiscoverError.monitorError
    ∧ discover none resOK dsTriv "Z" = Except.ok emptyWallet := by
  exact ⟨rfl, rfl⟩

/-! ### Shape of a successful discovery -/

theorem discover_ok_shape {mon : Option Monitor} {res : Resolver} {ds : DataSource}
    {seed : String} {w : ClusteredWallet} (h : discover mon res ds seed = Except.ok w) :
    ∃ st acc,
      discoverLoop ds mon (discoverFuel ds seed) (initState seed) = Except.ok st ∧
      List.foldlM (aggStep res ds) ([], []) st.cluster = Except.ok acc ∧
      w = ⟨dedupUtxos acc.1, acc.2,
           List.filterMap ds.getRewardAccountInfo st.ras,
           coalesceValueQuantities (List.map Utxo.value (dedupUtxos acc.1)),
           List.foldl (fun a i => a + RewardAccountInfo.rewards i) 0
             (List.filterMap ds.getRewardAccountInfo st.ras)⟩ := by
  simp only [discover] at h
  split at h
  · cases h
  · split at h
    · cases h
    · rename_i st hst
      split at h
      · cases h
      · rename_i acc hacc
        split at h
        · cases h
        · cases h
          exact ⟨st, acc, hst, hacc, rfl⟩

/-! ### C4: the deduplicated UTXO set has unique (hash, index) keys -/

theorem dedupUtxos_pairwise (l : List Utxo) :
    List.Pairwise (fun u v => ¬(u.txHash = v.txHash ∧ u.index = v.index)) (dedupUtxos l) := by
  unfold dedupUtxos
  rw [List.pairwise_map]
  have h1 : List.map Prod.fst (List.zip (List.range l.length) l) = List.range l.length :=
    List.map_fst_zip _ _ (by simp)
  have h2 : List.Pairwise (fun p q : Nat × Utxo => p.1 ≠ q.1)
      (List.zip (List.range l.length) l) := by
    have h0 := List.nodup_range l.length
    rw [← h1] at h0
    rw [List.Nodup, List.pairwise_map] at h0
    exact h0
  have h3 : List.Pairwise (fun p q : Nat × Utxo => p.1 ≠ q.1)
      (List.filter (fun p => p.1 == List.findIdx (fun t => sameUtxoKey t p.2) l)
        (List.zip (List.range l.length) l)) := h2.filter _
  refine List.Pairwise.imp_of_mem ?_ h3
  intro p q hp hq hne hkey
  have hcp : (p.1 == List.findIdx (fun t => sameUtxoKey t p.2) l) = true :=
    (List.mem_filter.mp hp).2
  have hcq : (q.1 == List.findIdx (fun t => sameUtxoKey t q.2) l) = true :=
    (List.mem_filter.mp hq).2
  have hfun : (fun t => sameUtxoKey t p.2) = (fun t => sameUtxoKey t q.2) := by
    funext t
    simp [sameUtxoKey, hkey.1, hkey.2]
  apply hne
  rw [beq_iff_eq] at hcp hcq
  rw [hcp, hcq, hfun]

/-- C4: every wallet returned by `discover` holds at most one UTXO per
(transaction hash, output index) pair: the `filter`/`findIndex`
deduplication keeps exactly the first occurrence of each key, so the UTXO
list is pairwise key-distinct even when the same UTXO was fetched into the
running list through several cluster addresses. -/
theorem discover_utxos_unique :
    ∀ (mon : Option Monitor) (res : Resolver) (ds : DataSource) (seed : String)
      (w : ClusteredWallet), discover mon res ds seed = Except.ok w →
    List.Pairwise (fun u v => ¬(u.txHash = v.txHash ∧ u.index = v.index))
      (ClusteredWallet.getUTXOs w) := by
  intro mon res ds seed w h
  obtain ⟨st, acc, -, -, hw⟩ := discover_ok_shape h
  subst hw
  exact dedupUtxos_pairwise acc.1

/-- A UTXO duplicated under two cluster addresses (the payment-credential
based Blockfrost `getUtxos` does return the same UTXO for two addresses
sharing a payment credential). -/
def uA : Utxo := ⟨"t1", 0, ⟨5, [("x", 2)]⟩, "S"⟩

/-- A second UTXO of address S. -/
def uB : Utxo := ⟨"t2", 1, ⟨7, []⟩, "S"⟩

/-- A UTXO of address T. -/
def uC : Utxo := ⟨"t3", 0, ⟨9, [("x", 3)]⟩, "T"⟩

/-- A world where addresses S and T form one cluster through reward account
K and `getUtxos` returns the shared UTXO `uA` for both. -/
def dsDup : DataSource :=
  ⟨fun a => if a = "S" then ["K"] else [],
   fun _ => none,
   fun ra => if ra = "K" then ["S", "T"] else [],
   fun a => if a = "S" then [uA, uB] else if a = "T" then [uA, uC] else [],
   0⟩

/-- The wallet discovered in the `dsDup` world. -/
def wDup : ClusteredWallet :=
  match discover none resOK dsDup "S" with
  | Except.ok w => w
  | Except.error _ => emptyWallet

/-- C4 witness: the uniqueness theorem applied in the `dsDup` world, where
`uA` enters the running UTXO list twice. -/
theorem discover_utxos_unique_witness :
    List.Pairwise (fun u v => ¬(u.txHash = v.txHash ∧ u.index = v.index))
      (ClusteredWallet.getUTXOs wDup) :=
  discover_utxos_unique none resOK dsDup "S" wDup (by rfl)

/-! ### C5: the balance is the coalesced sum of the deduplicated UTXO values -/

/-- Total quantity of asset `k` summed over all entries of an asset list
(equals the map lookup `assetQty` when keys are unique). -/
def sumQty : List (String × Int) → String → Int
  | [], _ => 0
  | p :: rest, k => (if p.1 = k then p.2 else 0) + sumQty rest k

theorem assetQty_nil (k : String) : assetQty [] k = 0 := rfl

theorem assetQty_cons (q : String × Int) (rest : List (String × Int)) (k : String) :
    assetQty (q :: rest) k = if q.1 = k then q.2 else assetQty rest k := by
  by_cases h : q.1 = k <;> simp [assetQty, List.find?, h]

theorem assetQty_insertAdd (p : String × Int) (k : String) :
    ∀ a : List (String × Int),
    assetQty (insertAdd a p) k = assetQty a k + (if p.1 = k then p.2 else 0) := by
  intro a
  induction a with
  | nil =>
    simp only [insertAdd, assetQty_cons, assetQty_nil]
    by_cases h : p.1 = k <;> simp [h]
  | cons q rest ih =>
    simp only [insertAdd]
    by_cases h1 : q.1 = p.1
    · rw [if_pos h1, assetQty_cons, assetQty_cons]
      by_cases h2 : p.1 = k
      · simp [h1, h2]
      · have h3 : ¬ q.1 = k := by rw [h1]; exact h2
        simp [h2, h3]
    · rw [if_neg h1, assetQty_cons, assetQty_cons]
      by_cases h2 : q.1 = k
      · have h3 : ¬ p.1 = k := fun hc => h1 (by rw [h2, hc])
        simp [h2, h3]
      · simp [h2, ih]

theorem assetQty_addAssets (k : String) :
    ∀ (b a : List (String × Int)),
    assetQty (addAssets a b) k = assetQty a k + sumQty b k := by
  intro b
  induction b with
  | nil => intro a; simp [addAssets, sumQty]
  | cons p rest ih =>
    intro a
    have hstep : addAssets a (p :: rest) = addAssets (insertAdd a p) rest := rfl
    rw [hstep, ih, assetQty_insertAdd, sumQty]
    ring

theorem coalesce_coins_foldl :
    ∀ (vs : List Value) (v0 : Value),
    (List.foldl addValue v0 vs).coins = v0.coins + List.sum (List.map Value.coins vs) := by
  intro vs
  induction vs with
  | nil => intro v0; simp
  | cons v vs ih =>
    intro v0
    have hstep : List.foldl addValue v0 (v :: vs) = List.foldl addValue (addValue v0 v) vs := rfl
    rw [hstep, ih]
    simp [addValue]
    ring

theorem coalesce_assets_foldl (k : String) :
    ∀ (vs : List Value) (v0 : Value),
    assetQty (List.foldl addValue v0 vs).assets k
      = assetQty v0.assets k + List.sum (List.map (fun v => sumQty v.assets k) vs) := by
  intro vs
  induction vs with
  | nil => intro v0; simp
  | cons v vs ih =>
    intro v0
    have hstep : List.foldl addValue v0 (v :: vs) = List.foldl addValue (addValue v0 v) vs := rfl
    rw [hstep, ih]
    have : assetQty (addValue v0 v).assets k = assetQty v0.assets k + sumQty v.assets k :=
      assetQty_addAssets k v.assets v0.assets
    rw [this]
    simp
    ring

theorem sumQty_eq_zero {rest : List (String × Int)} {k : String}
    (h : k ∉ List.map Prod.fst rest) : sumQty rest k = 0 := by
  induction rest with
  | nil => rfl
  | cons p r ih =>
    simp only [List.map_cons, List.mem_cons] at h
    push_neg at h
    have hp : ¬ p.1 = k := fun hc => h.1 hc.symm
    simp [sumQty, hp, ih h.2]

theorem sumQty_eq_assetQty {k : String} :
    ∀ {b : List (String × Int)}, (List.map Prod.fst b).Nodup →
    sumQty b k = assetQty b k := by
  intro b
  induction b with
  | nil => intro _; rfl
  | cons p rest ih =>
    intro h
    rw [List.map_cons, List.nodup_cons] at h
    rw [sumQty, assetQty_cons]
    by_cases hp : p.1 = k
    · rw [if_pos hp, if_pos hp, sumQty_eq_zero (hp ▸ h.1), add_zero]
    · rw [if_neg hp, if_neg hp, ih h.2, zero_add]

/-- C5: for every wallet returned by `discover` (whose per-UTXO asset maps
have unique keys, the JS `Map` invariant), the balance equals the coalesced
sum of the deduplicated UTXO set's values: the balance is literally
`coalesceValueQuantities` of the UTXO values, its coin total is the sum of
the per-UTXO coins, and each asset's quantity is the per-asset-identifier
sum over the UTXOs. -/
theorem discover_balance_coalesced :
    ∀ (mon : Option Monitor) (res : Resolver) (ds : DataSource) (seed : String)
      (w : ClusteredWallet), discover mon res ds seed = Except.ok w →
    (∀ u ∈ ClusteredWallet.getUTXOs w, (List.map Prod.fst u.value.assets).Nodup) →
    ClusteredWallet.getBalance w
        = coalesceValueQuantities (List.map Utxo.value (ClusteredWallet.getUTXOs w))
      ∧ (ClusteredWallet.getBalance w).coins
        = List.sum (List.map (fun u => u.value.coins) (ClusteredWallet.getUTXOs w))
      ∧ ∀ aid, assetQty (ClusteredWallet.getBalance w).assets aid
        = List.sum (List.map (fun u => assetQty u.value.assets aid)
            (ClusteredWallet.getUTXOs w)) := by
  intro mon res ds seed w h hnd
  obtain ⟨st, acc, -, -, hw⟩ := discover_ok_shape h
  subst hw
  simp only [ClusteredWallet.getUTXOs] at hnd
  simp only [ClusteredWallet.getBalance, ClusteredWallet.getUTXOs]
  refine ⟨trivial, ?_, ?_⟩
  · rw [coalesceValueQuantities, coalesce_coins_foldl]
    simp [emptyValue, List.map_map, Function.comp_def]
  · intro aid
    rw [coalesceValueQuantities, coalesce_assets_foldl]
    simp only [emptyValue, assetQty_nil, zero_add, List.map_map]
    have hcongr : List.map ((fun v => sumQty v.assets aid) ∘ Utxo.value) (dedupUtxos acc.1)
        = List.map (fun u => assetQty u.value.assets aid) (dedupUtxos acc.1) := by
      apply List.map_congr_left
      intro u hu
      exact sumQty_eq_assetQty (hnd u hu)
    rw [hcongr]

/-- C5 witness: the balance coherence theorem in the `dsDup` world, where
the deduplicated UTXOs are `uA`, `uB`, `uC` with coins 5 + 7 + 9 and asset
`x` quantities 2 + 0 + 3. -/
theorem discover_balance_coalesced_witness :
    (ClusteredWallet.getBalance wDup).coins = 21
    ∧ assetQty (ClusteredWallet.getBalance wDup).assets "x" = 5 := by
  have h := discover_balance_coalesced none resOK dsDup "S" wDup (by rfl) (by decide)
  refine ⟨?_, ?_⟩
  · rw [h.2.1]; rfl
  · rw [h.2.2 "x"]; rfl

/-! ### C6: absent reward-account info is dropped silently -/

/-- The info-independent part of a wallet: addresses, UTXOs and balance. -/
def walletCore (w : ClusteredWallet) : List Utxo × List AddressInfo × Value :=
  (w.utxos, w.clusterAddresses, w.balance)

/-- Replace only the `getRewardAccountInfo` answer of a data source. -/
def setInfo (ds : DataSource) (g : String → Option RewardAccountInfo) : DataSource :=
  ⟨ds.getRewardAccounts, g, ds.getAddresses, ds.getUtxos, ds.getNetworkId⟩

theorem setInfo_getRewardAccounts (ds : DataSource) (g : String → Option RewardAccountInfo) :
    (setInfo ds g).getRewardAccounts = ds.getRewardAccounts := rfl

theorem setInfo_getRewardAccountInfo (ds : DataSource) (g : String → Option RewardAccountInfo) :
    (setInfo ds g).getRewardAccountInfo = g := rfl

theorem processRA_setInfo (ds : DataSource) (g : String → Option RewardAccountInfo)
    (mon : Option Monitor) (st : LoopState) (ra : String) :
    processRA (setInfo ds g) mon st ra = processRA ds mon st ra := rfl

theorem discoverLoop_setInfo (ds : DataSource) (g : String → Option RewardAccountInfo)
    (mon : Option Monitor) :
    ∀ (fuel : Nat) (st : LoopState),
    discoverLoop (setInfo ds g) mon fuel st = discoverLoop ds mon fuel st := by
  have hpr : processRA (setInfo ds g) mon = processRA ds mon := rfl
  intro fuel
  induction fuel with
  | zero => intro st; rfl
  | succ fuel ih =>
    intro st
    simp only [discoverLoop, setInfo_getRewardAccounts, hpr, ih]

theorem discoverFuel_setInfo (ds : DataSource) (g : String → Option RewardAccountInfo)
    (seed : String) : discoverFuel (setInfo ds g) seed = discoverFuel ds seed := rfl

theorem aggStep_setInfo (res : Resolver) (ds : DataSource)
    (g : String → Option RewardAccountInfo) :
    aggStep res (setInfo ds g) = aggStep res ds := rfl

theorem discover_setInfo_core (mon : Option Monitor) (res : Resolver) (ds : DataSource)
    (g : String → Option RewardAccountInfo) (seed : String) :
    Except.map walletCore (discover mon res (setInfo ds g) seed)
      = Except.map walletCore (discover mon res ds seed) := by
  simp only [discover, discoverFuel_setInfo, aggStep_setInfo, discoverLoop_setInfo,
    setInfo_getRewardAccountInfo]
  cases h1 : callMon mon ("Starting cluster discovery from seed " ++ seed ++ ".") with
  | error e => simp
  | ok u1 =>
    cases h2 : discoverLoop ds mon (discoverFuel ds seed) (initState seed) with
    | error e => simp
    | ok stF =>
      cases h3 : List.foldlM (aggStep res ds) ([], []) stF.cluster with
      | error e => simp [h3]
      | ok acc =>
        cases h4 : callMon mon "Cluster discovery complete." with
        | error e => simp [h3, h4]
        | ok u2 => simp [h3, h4, Except.map, walletCore]

theorem foldl_rewards_sum :
    ∀ (l : List RewardAccountInfo) (a : Int),
    List.foldl (fun a i => a + RewardAccountInfo.rewards i) a l
      = a + List.sum (List.map RewardAccountInfo.rewards l) := by
  intro l
  induction l with
  | nil => intro a; simp
  | cons i l ih =>
    intro a
    have hstep : List.foldl (fun a i => a + RewardAccountInfo.rewards i) a (i :: l)
        = List.foldl (fun a i => a + RewardAccountInfo.rewards i) (a + i.rewards) l := rfl
    rw [hstep, ih]
    simp
    ring

/-- C6: a reward account whose `getRewardAccountInfo` is absent never fails
discovery and is silently excluded.  First conjunct: replacing the
info-answers of the data source (e.g. by the everywhere-absent function)
changes neither the success/failure of `discover` nor the addresses, UTXOs
or balance of the resulting wallet — so the addresses found through that
credential stay in the cluster and no failure can originate in the info
phase.  Second conjunct: the retained reward-account list is exactly
`filterMap getRewardAccountInfo` over the discovered reward accounts (so an
account with absent info is dropped), and the rewards total is the sum over
exactly the retained infos. -/
theorem discover_absent_info_dropped :
    ∀ (mon : Option Monitor) (res : Resolver) (ds : DataSource)
      (g : String → Option RewardAccountInfo) (seed : String),
    Except.map walletCore (discover mon res (setInfo ds g) seed)
      = Except.map walletCore (discover mon res ds seed)
    ∧ ∀ w, discover mon res ds seed = Except.ok w →
        ClusteredWallet.getRewardAccounts w
          = List.filterMap ds.getRewardAccountInfo (discoveredRAs mon ds seed)
        ∧ ClusteredWallet.getRewards w
          = List.sum (List.map RewardAccountInfo.rewards (ClusteredWallet.getRewardAccounts w)) := by
  intro mon res ds g seed
  refine ⟨discover_setInfo_core mon res ds g seed, ?_⟩
  intro w h
  obtain ⟨st, acc, hst, -, hw⟩ := discover_ok_shape h
  subst hw
  simp only [ClusteredWallet.getRewardAccounts, ClusteredWallet.getRewards]
  constructor
  · unfold discoveredRAs
    rw [hst]
  · rw [foldl_rewards_sum]
    simp

/-- A world with two discovered reward accounts: K1's info is absent, K2's
info is present with 50 withdrawable rewards. -/
def dsRA : DataSource :=
  ⟨fun a => if a = "S" then ["K1", "K2"] else [],
   fun ra => if ra = "K2" then some ⟨"K2", 50, 1000, some "P1"⟩ else none,
   fun _ => ["S"],
   fun _ => [],
   0⟩

/-- The wallet discovered in the `dsRA` world. -/
def wRA : ClusteredWallet :=
  match discover none resOK dsRA "S" with
  | Except.ok w => w
  | Except.error _ => emptyWallet

/-- C6 witness: the theorem applied in the `dsRA` world, where reward
account K1 has absent info and K2 has rewards 50; K1 is dropped, the
rewards total is the sum over the single retained info, and replacing all
info answers by the everywhere-absent function leaves the
addresses/UTXOs/balance part of the result unchanged. -/
theorem discover_absent_info_dropped_witness :
    Except.map walletCore (discover none resOK (setInfo dsRA (fun _ => none)) "S")
      = Except.map walletCore (discover none resOK dsRA "S")
    ∧ ClusteredWallet.getRewardAccounts wRA
        = List.filterMap dsRA.getRewardAccountInfo (discoveredRAs none dsRA "S")
    ∧ ClusteredWallet.getRewards wRA
        = List.sum (List.map RewardAccountInfo.rewards (ClusteredWallet.getRewardAccounts wRA)) := by
  have h := discover_absent_info_dropped none resOK dsRA (fun _ => none) "S"
  have h2 := h.2 wRA (by rfl)
  exact ⟨h.1, h2.1, h2.2⟩

/-! ### The fuel is an embedding artefact: the while loop always terminates

After the first iteration every frontier address is already a cluster
member, so every later iteration merely pops; `discoverFuel` therefore
always suffices and no run of `discover` ends with `outOfFuel`. -/

theorem contains_true_iff {s : List String} {x : String} : s.contains x = true ↔ x ∈ s := by
  induction s with
  | nil =>
    rw [show ([] : List String).contains x = false from rfl]
    simp
  | cons a rest ih =>
    rw [List.contains_cons, Bool.or_eq_true, beq_iff_eq, ih, List.mem_cons]

theorem mem_setAdd {s : List String} {x y : String} :
    y ∈ setAdd s x ↔ y ∈ s ∨ y = x := by
  unfold setAdd
  split
  · rename_i hc
    constructor
    · exact Or.inl
    · intro h
      cases h with
      | inl h => exact h
      | inr h => subst h; exact List.mem_of_elem_eq_true hc
  · simp

theorem mem_insertRangeInSet {x : String} :
    ∀ (arr s : List String), x ∈ insertRangeInSet arr s ↔ x ∈ s ∨ x ∈ arr := by
  intro arr
  induction arr with
  | nil => intro s; simp [insertRangeInSet]
  | cons a arr ih =>
    intro s
    have hstep : insertRangeInSet (a :: arr) s = insertRangeInSet arr (setAdd s a) := rfl
    rw [hstep, ih, mem_setAdd]
    simp
    tauto

theorem length_setAdd_le (s : List String) (x : String) :
    (setAdd s x).length ≤ s.length + 1 := by
  unfold setAdd
  split
  · omega
  · simp

theorem length_insertRangeInSet_le :
    ∀ (arr s : List String), (insertRangeInSet arr s).length ≤ s.length + arr.length := by
  intro arr
  induction arr with
  | nil => intro s; simp [insertRangeInSet]
  | cons a arr ih =>
    intro s
    have hstep : insertRangeInSet (a :: arr) s = insertRangeInSet arr (setAdd s a) := rfl
    rw [hstep]
    have h1 := ih (setAdd s a)
    have h2 := length_setAdd_le s a
    simp only [List.length_cons]
    omega

/-- The invariant established by the seed's expansion: every frontier
address is already a cluster member. -/
def frontierCovered (st : LoopState) : Prop :=
  ∀ a ∈ st.frontier, st.cluster.contains a = true

theorem processRA_covered {ds : DataSource} {mon : Option Monitor} {st st2 : LoopState}
    {ra : String} (h : processRA ds mon st ra = Except.ok st2) :
    (frontierCovered st → frontierCovered st2)
    ∧ st2.frontier.length ≤ st.frontier.length + (ds.getAddresses ra).length := by
  simp only [processRA] at h
  split at h
  · cases h
    exact ⟨fun hc => hc, by omega⟩
  · split at h
    · cases h
    · split at h
      · cases h
      · cases h
        constructor
        · intro hc a ha
          rw [mem_insertRangeInSet] at ha
          rw [contains_true_iff, mem_insertRangeInSet]
          cases ha with
          | inl ha => exact Or.inl (contains_true_iff.mp (hc a ha))
          | inr ha => exact Or.inr ha
        · exact length_insertRangeInSet_le _ _

theorem foldlM_processRA_covered {ds : DataSource} {mon : Option Monitor} :
    ∀ (l : List String) (st st2 : LoopState),
    List.foldlM (processRA ds mon) st l = Except.ok st2 →
    (frontierCovered st → frontierCovered st2)
    ∧ st2.frontier.length
      ≤ st.frontier.length + List.sum (List.map (fun ra => (ds.getAddresses ra).length) l) := by
  intro l
  induction l with
  | nil =>
    intro st st2 h
    simp [List.foldlM, pure, Except.pure] at h
    subst h
    exact ⟨fun hc => hc, by simp⟩
  | cons ra l ih =>
    intro st st2 h
    rw [List.foldlM_cons] at h
    cases hp : processRA ds mon st ra with
    | error e => rw [hp] at h; simp only [Bind.bind, Except.bind] at h; cases h
    | ok st1 =>
      rw [hp] at h
      simp only [Bind.bind, Except.bind] at h
      have h1 := processRA_covered hp
      have h2 := ih st1 st2 h
      refine ⟨fun hc => h2.1 (h1.1 hc), ?_⟩
      simp only [List.map_cons, List.sum_cons]
      omega

theorem discoverLoop_drain {ds : DataSource} {mon : Option Monitor} :
    ∀ (frontier : List String) (fuel : Nat) (cluster ras : List String),
    (∀ a ∈ frontier, cluster.contains a = true) → frontier.length < fuel →
    discoverLoop ds mon fuel ⟨frontier, cluster, ras⟩ = Except.ok ⟨[], cluster, ras⟩ := by
  intro frontier
  induction frontier with
  | nil =>
    intro fuel cluster ras _ hlt
    cases fuel with
    | zero => omega
    | succ f => simp [discoverLoop]
  | cons a rest ih =>
    intro fuel cluster ras hc hlt
    cases fuel with
    | zero => simp at hlt
    | succ f =>
      simp only [discoverLoop]
      split
      · rename_i hemp
        simp at hemp
      · split
        · rename_i hpop
          simp [popFromSet] at hpop
        · rename_i address rest2 hpop
          simp only [popFromSet] at hpop
          rw [Option.some.injEq, Prod.mk.injEq] at hpop
          obtain ⟨h1, h2⟩ := hpop
          subst h1
          subst h2
          split
          · apply ih
            · intro x hx
              exact hc x (List.mem_cons_of_mem a hx)
            · simp at hlt
              omega
          · rename_i hcon
            exact absurd (hc a (List.mem_cons_self a rest)) hcon

theorem discoverLoop_initState_ne_outOfFuel (ds : DataSource) (mon : Option Monitor)
    (seed : String) :
    discoverLoop ds mon (discoverFuel ds seed) (initState seed)
      ≠ Except.error DiscoverError.outOfFuel := by
  intro h
  have hinit : initState seed = ⟨[seed], [], []⟩ := rfl
  rw [hinit] at h
  have hfuel : discoverFuel ds seed
      = Nat.succ (1 + List.sum (List.map (fun ra => (ds.getAddresses ra).length)
          (ds.getRewardAccounts seed))) := by
    unfold discoverFuel
    omega
  rw [hfuel] at h
  simp only [discoverLoop] at h
  split at h
  · cases h
  · split at h
    · rename_i hpop
      simp [popFromSet] at hpop
    · rename_i address rest hpop
      rw [show popFromSet [seed] = some (seed, []) from rfl] at hpop
      rw [Option.some.injEq, Prod.mk.injEq] at hpop
      obtain ⟨h1, h2⟩ := hpop
      subst h1
      subst h2
      split at h
      · rename_i hcon
        exact Bool.false_ne_true hcon
      · split at h
        · rename_i hcm
          cases h
          exact absurd (callMon_error hcm) (by simp)
        · split at h
          · rename_i hf
            cases h
            exact absurd (foldlM_processRA_error _ _ _ hf) (by simp)
          · rename_i st2 hf
            have hcov := foldlM_processRA_covered _ _ _ hf
            have hc2 : frontierCovered st2 := by
              apply hcov.1
              intro a ha
              simp at ha
            have hlen : st2.frontier.length
                ≤ List.sum (List.map (fun ra => (ds.getAddresses ra).length)
                    (ds.getRewardAccounts seed)) := by
              have := hcov.2
              simpa using this
            have hdrain := @discoverLoop_drain ds mon st2.frontier
              (1 + List.sum (List.map (fun ra => (ds.getAddresses ra).length)
                (ds.getRewardAccounts seed))) st2.cluster st2.ras hc2 (by omega)
            rw [show (⟨st2.frontier, st2.cluster, st2.ras⟩ : LoopState) = st2 from rfl]
              at hdrain
            rw [hdrain] at h
            cases h

/-- The fuel of the embedding never runs out: the while loop of `discover`
terminates for every data source, because the only iteration that can grow
the frontier is the seed's own expansion (every other popped address is
already a cluster member) and the frontier it leaves behind is bounded by
the total number of addresses the seed's reward accounts return. -/
theorem discover_never_out_of_fuel :
    ∀ (mon : Option Monitor) (res : Resolver) (ds : DataSource) (seed : String),
    discover mon res ds seed ≠ Except.error DiscoverError.outOfFuel := by
  intro mon res ds seed h
  simp only [discover] at h
  split at h
  · rename_i hc
    cases h
    exact absurd (callMon_error hc) (by simp)
  · split at h
    · rename_i hl
      cases h
      exact discoverLoop_initState_ne_outOfFuel ds mon seed hl
    · split at h
      · rename_i hf
        cases h
        exact absurd (foldlM_aggStep_error _ _ _ hf) (by simp)
      · split at h
        · rename_i hc
          cases h
          exact absurd (callMon_error hc) (by simp)
        · cases h

/-! ### The Blockfrost data source (`BlockfrostBlockchainDataSource.ts`)

The external `BlockFrostAPI` client is modelled as a record of calls that
may fail (network error, not-found response, missing credentials are all
collapsed into `Except.error ()`, the JS exception). -/

/-- The provider's account record (`api.accounts`). -/
structure AccountRec where
  withdrawable_amount : Int
  controlled_amount : Int
  pool_id : Option String
deriving Repr, DecidableEq

/-- One entry of the provider's per-UTXO `amount` array. -/
structure AmountRec where
  unit : String
  quantity : Int
deriving Repr, DecidableEq

/-- The provider's UTXO record (`api.addressesUtxos`). -/
structure BFUtxoRec where
  address : String
  tx_hash : String
  output_index : Nat
  amount : List AmountRec
deriving Repr, DecidableEq

/-- One entry of the provider's `accountsAddresses` answer. -/
structure BFAddrRec where
  address : String
deriving Repr, DecidableEq

/-- The external Blockfrost HTTP client, each call possibly throwing. -/
structure BlockFrostAPI where
  accounts : String → Except Unit AccountRec
  accountsAddresses : String → Except Unit (List BFAddrRec)
  addressesUtxos : String → Except Unit (List BFUtxoRec)

/-- The Blockfrost-backed data source: the API client plus the network id
(`isTestnet ? 0 : 1`). -/
structure BlockfrostBlockchainDataSource where
  api : BlockFrostAPI
  networkId : Int

/-- Conversion of one provider UTXO record inside `getUtxos`; the
`amount.find(e => e.unit === 'lovelace').quantity` access throws when no
lovelace entry is present. -/
def convertUtxo (r : BFUtxoRec) : Except Unit Utxo :=
  match r.amount.find? (fun e => e.unit == "lovelace") with
  | none => Except.error ()
  | some love =>
    Except.ok ⟨r.tx_hash, r.output_index,
      ⟨love.quantity,
       List.map (fun e => (e.unit, e.quantity))
         (r.amount.filter (fun e => e.unit != "lovelace"))⟩,
      r.address⟩

/-- `BlockfrostBlockchainDataSource.getUtxos`: resolves the payment
credential (which throws on an invalid address) and queries the provider,
with no catch anywhere. -/
def BFDS.getUtxos (res : Resolver) (s : BlockfrostBlockchainDataSource) (address : String) :
    Except Unit (List Utxo) :=
  match res.payment address with
  | Except.error e => Except.error e
  | Except.ok vkh =>
    match s.api.addressesUtxos vkh with
    | Except.error e => Except.error e
    | Except.ok result => result.mapM convertUtxo

/-- `BlockfrostBlockchainDataSource.getRewardAccounts`: maps the UTXOs'
addresses through `getStakingCredential` (which may throw), filters out the
nulls and deduplicates; no catch anywhere. -/
def BFDS.getRewardAccounts (res : Resolver) (s : BlockfrostBlockchainDataSource)
    (address : String) : Except Unit (List String) :=
  match BFDS.getUtxos res s address with
  | Except.error e => Except.error e
  | Except.ok utxos =>
    match utxos.mapM (fun u => res.staking u.address s.networkId) with
    | Except.error e => Except.error e
    | Except.ok scs => Except.ok (insertRangeInSet (scs.filterMap id) [])

/-- `BlockfrostBlockchainDataSource.getRewardAccountInfo`: the provider call
is wrapped in try/catch and a failure is downgraded to `null`. -/
def BFDS.getRewardAccountInfo (s : BlockfrostBlockchainDataSource) (rewardAccount : String) :
    Option RewardAccountInfo :=
  match s.api.accounts rewardAccount with
  | Except.error _ => none
  | Except.ok a => some ⟨rewardAccount, a.withdrawable_amount, a.controlled_amount, a.pool_id⟩

/-- `BlockfrostBlockchainDataSource.getAddresses`: the provider call is
wrapped in try/catch and a failure is downgraded to the empty list. -/
def BFDS.getAddresses (s : BlockfrostBlockchainDataSource) (stakeCredential : String) :
    List String :=
  match s.api.accountsAddresses stakeCredential with
  | Except.error _ => []
  | Except.ok addresses => List.map BFAddrRec.address addresses

/-- An API client for which every call fails (provider unreachable, or the
entity is unknown). -/
def apiFail : BlockFrostAPI :=
  ⟨fun _ => Except.error (), fun _ => Except.error (), fun _ => Except.error ()⟩

/-- The Blockfrost data source over the failing client. -/
def bfdsFail : BlockfrostBlockchainDataSource := ⟨apiFail, 0⟩

/-- A resolver for which the sample address does not decode
(`getPaymentCredential` throws `MalformedAddress`). -/
def resBad : Resolver :=
  ⟨fun _ => Except.error (), fun _ _ => Except.error ()⟩

/-- C3 counterexample: lookups are NOT all downgraded at the boundary.
For an invalid address (whose payment-credential resolution throws) AND for
a valid address (resolution succeeds, `resOK`) over a failing provider,
`getUtxos` and `getRewardAccounts` raise instead of returning empty: only
`getRewardAccountInfo` and `getAddresses` have the try/catch downgrade. -/
theorem blockfrost_getRewardAccounts_raises :
    BFDS.getRewardAccounts resBad bfdsFail "not-an-address" = Except.error ()
    ∧ BFDS.getUtxos resBad bfdsFail "not-an-address" = Except.error ()
    ∧ BFDS.getRewardAccounts resOK bfdsFail "addr1valid" = Except.error ()
    ∧ BFDS.getUtxos resOK bfdsFail "addr1valid" = Except.error ()
    ∧ BFDS.getRewardAccountInfo bfdsFail "stake1xyz" = none
    ∧ BFDS.getAddresses bfdsFail "stake1xyz" = [] := by
  exact ⟨rfl, rfl, rfl, rfl, rfl, rfl⟩

/-- C3 (amended): the downgrade-at-the-boundary contract holds for
`getRewardAccountInfo` (provider failure becomes absent) and for
`getAddresses` (provider failure becomes the empty list), while `getUtxos`
and `getRewardAccounts` propagate both failure causes to the caller: a
payment-credential resolution failure (e.g. an invalid address, third
conjunct), and a provider failure of the UTXO query with resolution
succeeding (fourth conjunct). -/
theorem blockfrost_boundary_amended :
    ∀ (s : BlockfrostBlockchainDataSource) (ra sc : String) (res : Resolver) (a : String),
    (s.api.accounts ra = Except.error () → BFDS.getRewardAccountInfo s ra = none)
    ∧ (s.api.accountsAddresses sc = Except.error () → BFDS.getAddresses s sc = [])
    ∧ (res.payment a = Except.error () →
        BFDS.getUtxos res s a = Except.error ()
        ∧ BFDS.getRewardAccounts res s a = Except.error ())
    ∧ (∀ vkh, res.payment a = Except.ok vkh →
        s.api.addressesUtxos vkh = Except.error () →
        BFDS.getUtxos res s a = Except.error ()
        ∧ BFDS.getRewardAccounts res s a = Except.error ()) := by
  intro s ra sc res a
  refine ⟨?_, ?_, ?_, ?_⟩
  · intro h; simp [BFDS.getRewardAccountInfo, h]
  · intro h; simp [BFDS.getAddresses, h]
  · intro h
    have hu : BFDS.getUtxos res s a = Except.error () := by
      simp [BFDS.getUtxos, h]
    exact ⟨hu, by simp [BFDS.getRewardAccounts, hu]⟩
  · intro vkh hp hx
    have hu : BFDS.getUtxos res s a = Except.error () := by
      simp [BFDS.getUtxos, hp, hx]
    exact ⟨hu, by simp [BFDS.getRewardAccounts, hu]⟩

/-- C3 amended witness: the boundary theorem at the failing client, applied
both with the non-decoding resolver (resolution failure) and with the
always-resolving resolver (provider failure reached), every hypothesis
discharged by computation. -/
theorem blockfrost_boundary_amended_witness :
    BFDS.getRewardAccountInfo bfdsFail "stake1abc" = none
    ∧ BFDS.getAddresses bfdsFail "stake1abc" = []
    ∧ (BFDS.getUtxos resBad bfdsFail "addr1abc" = Except.error ()
       ∧ BFDS.getRewardAccounts resBad bfdsFail "addr1abc" = Except.error ())
    ∧ (BFDS.getUtxos resOK bfdsFail "addr1abc" = Except.error ()
       ∧ BFDS.getRewardAccounts resOK bfdsFail "addr1abc" = Except.error ()) := by
  have h := blockfrost_boundary_amended bfdsFail "stake1abc" "stake1abc" resBad "addr1abc"
  have h2 := blockfrost_boundary_amended bfdsFail "stake1abc" "stake1abc" resOK "addr1abc"
  exact ⟨h.1 rfl, h.2.1 rfl, h.2.2.1 rfl, h2.2.2.2 "addr1abc" rfl rfl⟩

/-! ### The credential resolver of `src/utils.ts` (C8)

The external `Cardano.Address` codec is modelled from the spec: a decoded
address is a base address (payment and stake hash), an enterprise address
(payment hash only), a reward address (stake hash only), or some other
decodable form without an accessible payment part; `fromBech32` is an
abstract decoder and the bech32 re-encoding under the `addr_vkh` prefix is
an abstract encoder. -/

/-- A decoded Cardano address as seen through `asBase`/`asEnterprise`. -/
inductive CardanoAddress where
  | base (paymentHash : String) (stakeHash : String)
  | enterprise (paymentHash : String)
  | reward (stakeHash : String)
  | other
deriving Repr, DecidableEq

/-- `addr.asEnterprise()?.getPaymentCredential()`. -/
def asEnterprisePayment : CardanoAddress → Option String
  | CardanoAddress.enterprise p => some p
  | _ => none

/-- `addr.asBase()?.getPaymentCredential()`. -/
def asBasePayment : CardanoAddress → Option String
  | CardanoAddress.base p _ => some p
  | _ => none

/-- The payment part an address carries, if any. -/
def paymentPart (a : CardanoAddress) : Option String :=
  match asBasePayment a with
  | some p => some p
  | none => asEnterprisePayment a

/-- `getPaymentCredential` of `src/utils.ts` over an abstract decoder
`fromBech32` (returning `none` where the codec throws) and an abstract
bech32 re-encoder `encodeVkh` for the `addr_vkh` credential format.  The
`Except.error ()` outcomes are the `MalformedAddress` failures: the decode
throw, and the TypeError of reading `.hash` on an undefined payment
credential. -/
def getPaymentCredential (fromBech32 : String → Option CardanoAddress)
    (encodeVkh : String → String) (address : String) : Except Unit String :=
  match fromBech32 address with
  | none => Except.error ()
  | some addr =>
    let paymentCredential := asEnterprisePayment addr
    let paymentCredential :=
      match asBasePayment addr with
      | some b => some b
      | none => paymentCredential
    match paymentCredential with
    | none => Except.error ()
    | some hash => Except.ok (encodeVkh hash)

/-- C8: for every address string, `getPaymentCredential` either returns the
re-encoding of the payment key hash (exactly when the address decodes and
carries a payment part) or fails with the `MalformedAddress` error, both
when the address does not decode and when the decoded address carries no
payment part (e.g. a reward address, which is neither base nor enterprise). -/
theorem getPaymentCredential_spec :
    ∀ (fromBech32 : String → Option CardanoAddress) (encodeVkh : String → String)
      (address : String),
    (∃ addr hash, fromBech32 address = some addr ∧ paymentPart addr = some hash
      ∧ getPaymentCredential fromBech32 encodeVkh address = Except.ok (encodeVkh hash))
    ∨ (getPaymentCredential fromBech32 encodeVkh address = Except.error ()
      ∧ (fromBech32 address = none
         ∨ ∃ addr, fromBech32 address = some addr ∧ paymentPart addr = none)) := by
  intro fromBech32 encodeVkh address
  cases hd : fromBech32 address with
  | none =>
    right
    exact ⟨by simp [getPaymentCredential, hd], Or.inl rfl⟩
  | some addr =>
    cases addr with
    | base p s =>
      left
      exact ⟨CardanoAddress.base p s, p, rfl, rfl,
        by simp [getPaymentCredential, hd, asBasePayment, asEnterprisePayment]⟩
    | enterprise p =>
      left
      exact ⟨CardanoAddress.enterprise p, p, rfl, rfl,
        by simp [getPaymentCredential, hd, asBasePayment, asEnterprisePayment]⟩
    | reward s =>
      right
      refine ⟨by simp [getPaymentCredential, hd, asBasePayment, asEnterprisePayment], ?_⟩
      exact Or.inr ⟨CardanoAddress.reward s, rfl, rfl⟩
    | other =>
      right
      refine ⟨by simp [getPaymentCredential, hd, asBasePayment, asEnterprisePayment], ?_⟩
      exact Or.inr ⟨CardanoAddress.other, rfl, rfl⟩

end CW
